import Mathlib

/-!
Verification development for the LLMStudio provider core
(`libs/core/llmstudio_core/providers/provider.py`, `.../anthropic.py`,
`llmstudio/engine/providers/vertexai.py`).

The Python code is shallowly embedded: dictionaries become structures with
optional fields (a `none` models a JSON `null` / missing value where the code
treats them alike), fallible code returns `Option`/`Except` (a `none` models an
uncaught Python exception aborting the computation), and generator loops become
folds over lists.  Nondeterministic environment values (`uuid.uuid4()`,
`time.time()`) are replaced by fixed placeholders; no verified property depends
on them.
-/

namespace LLMStudio

/-! ### Cost model — `ProviderCore.calculate_cost` (provider.py lines 1062-1094)

A model's per-token cost is either a flat rate or a list of bands, each with a
`range` (lower bound, optional upper bound; `none` upper bound means unbounded)
and a `cost` per token.  Python floats are modelled as rationals. -/

structure CostRange where
  lo : Nat
  hi : Option Nat
deriving Repr, DecidableEq

structure CostBand where
  range : CostRange
  cost : Rat
deriving Repr, DecidableEq

inductive TokenCost where
  | flat (cost : Rat)
  | banded (bands : List CostBand)
deriving Repr, DecidableEq

/-- The membership test of the source's band loop:
`token_count >= cost_range.range[0] and (cost_range.range[1] is None or token_count <= cost_range.range[1])`. -/
def bandContains (b : CostBand) (token_count : Nat) : Bool :=
  decide (b.range.lo ≤ token_count) &&
    (match b.range.hi with
     | none => true
     | some hi => decide (token_count ≤ hi))

/-- `ProviderCore.calculate_cost`.  For a list the source iterates the bands in
order and returns on the first one whose range contains the count (`find?`);
falling through the loop reaches the trailing `return 0`. -/
def calculate_cost (token_count : Nat) (token_cost : TokenCost) : Rat :=
  match token_cost with
  | TokenCost.banded bands =>
      match bands.find? (fun b => bandContains b token_count) with
      | some b => b.cost * token_count
      | none => 0
  | TokenCost.flat c => c * token_count

/-! ### Chat entry point — `ProviderCore.chat` (provider.py lines 272-340)

`chat` validates the raw request (`ValidationError` is re-raised as
`ProviderError`), checks model membership (`validate_model` raises
`ProviderError` directly), and only then enters the attempt loop
`for _ in range(request.retries + 1)`.  Inside the loop any exception from an
attempt (the `generate_client` network call or the response handling, both
abstracted into `generate_client` below) is immediately re-raised as
`ProviderError`, which exits both the loop and the function; the trailing
`raise ProviderError("Too many requests")` runs only when the loop body never
executes.  The second component of the result counts how many send attempts
(`generate_client` calls) were made. -/

structure MRequest where
  chat_input : String
  model : String
  is_stream : Bool := false
  retries : Nat := 0
deriving Repr, DecidableEq

inductive ChatOutcome (β : Type) where
  | ok (value : β)
  | providerError (msg : String)
deriving Repr, DecidableEq

/-- An abstract provider adapter: the pieces of the `ProviderCore` subclass
contract that `chat` drives.  `validate_request` returns `Except.error` for a
pydantic `ValidationError`; `generate_client` returns `Except.error` when the
attempt (network call / response handling) raises. -/
structure MProvider (β : Type) where
  name : String
  models : List String
  validate_request : MRequest → Except String MRequest
  generate_client : MRequest → Except String β

/-- `ProviderCore.validate_model` (provider.py lines 140-144). -/
def validate_model {β : Type} (p : MProvider β) (r : MRequest) : Except String Unit :=
  if r.model ∈ p.models then Except.ok ()
  else Except.error ("Model " ++ r.model ++ " is not supported by " ++ p.name)

/-- The attempt loop of `chat`.  The fuel is `request.retries + 1`
(`for _ in range(request.retries + 1)`); with fuel available, one attempt runs
and either returns its value or raises `ProviderError` immediately — the
remaining fuel is never consumed because `raise` exits the loop. -/
def chat_loop {β : Type} (p : MProvider β) (r : MRequest) : Nat → ChatOutcome β × Nat
  | 0 => (ChatOutcome.providerError "Too many requests", 0)
  | Nat.succ _ =>
      match p.generate_client r with
      | Except.ok b => (ChatOutcome.ok b, 1)
      | Except.error e => (ChatOutcome.providerError e, 1)

/-- `ProviderCore.chat`: validate, check model membership, then run the attempt
loop.  Returns the outcome together with the number of send attempts made. -/
def chat {β : Type} (p : MProvider β) (chat_input model : String)
    (is_stream : Bool) (retries : Nat) : ChatOutcome β × Nat :=
  match p.validate_request
      { chat_input := chat_input, model := model, is_stream := is_stream, retries := retries } with
  | Except.error e => (ChatOutcome.providerError e, 0)
  | Except.ok req =>
      match validate_model p req with
      | Except.error e => (ChatOutcome.providerError e, 0)
      | Except.ok _ => chat_loop p req (req.retries + 1)

/-! ### Streamed chunk data model

The dictionaries flowing through `handle_response_stream` / `join_chunks` are
`ChatCompletionChunk.model_dump()` results: every key is present, with `None`
for absent values.  `ty` models the `"type"` key. -/

structure FunctionFrag where
  name : Option String := none
  arguments : Option String := none
  ty : Option String := none
deriving Repr, DecidableEq

structure ToolCallFrag where
  index : Nat
  id : Option String := none
  function : FunctionFrag := {}
deriving Repr, DecidableEq

structure FunctionCallFrag where
  name : Option String := none
  arguments : Option String := none
deriving Repr, DecidableEq

structure Delta where
  content : Option String := none
  role : Option String := none
  tool_calls : Option (List ToolCallFrag) := none
  function_call : Option FunctionCallFrag := none
deriving Repr, DecidableEq

structure DChoice where
  delta : Delta := {}
  finish_reason : Option String := none
deriving Repr, DecidableEq

structure Chunk where
  id : Option String := none
  created : Option Nat := none
  model : Option String := none
  choices : List DChoice := []
deriving Repr, DecidableEq

/-! ### Joined (non-streaming-shaped) completion

The `ChatCompletion` object synthesized by `join_chunks`.  Pydantic rejects a
`None` where a string is required, so `id`, `name`, ... are plain `String`s
here and `join_chunks` fails (returns `none`) when the source would raise. -/

structure MessageToolCall where
  id : String
  name : String
  arguments : String
  ty : String
deriving Repr, DecidableEq

structure FunctionCallOut where
  name : String
  arguments : String
deriving Repr, DecidableEq

structure OutMessage where
  content : Option String
  role : String
  tool_calls : Option (List MessageToolCall)
  function_call : Option FunctionCallOut
deriving Repr, DecidableEq

structure OutChoice where
  finish_reason : String
  index : Nat
  message : OutMessage
deriving Repr, DecidableEq

structure Completion where
  id : String
  created : Nat
  model : String
  object : String
  choices : List OutChoice
deriving Repr, DecidableEq

/-! ### `ProviderCore.join_chunks` (provider.py lines 661-831) -/

/-- `"".join` over a list of strings. -/
def strJoin : List String → String
  | [] => ""
  | s :: rest => s ++ strJoin rest

/-- Extraction of one chunk's tool-call fragment, as done by the grouping loop:
`data = chunk.get("choices")[0].get("delta").get("tool_calls")[0]` inside
`try ... except TypeError: continue`.  Indexing `None` raises `TypeError`
(caught → `skip`); indexing an empty list raises `IndexError` (NOT caught →
`abort`s the whole join). -/
inductive FragGet where
  | skip
  | abort
  | frag (d : ToolCallFrag)
deriving Repr, DecidableEq

def chunkToolFrag (c : Chunk) : FragGet :=
  match c.choices.head? with
  | none => FragGet.abort
  | some ch =>
      match ch.delta.tool_calls with
      | none => FragGet.skip
      | some [] => FragGet.abort
      | some (d :: _) => FragGet.frag d

/-- `tool_calls.setdefault(data["index"], []).append(data)` on an
insertion-ordered dictionary, modelled as an association list: append to the
entry with the fragment's index, or add a new entry at the end. -/
def addFrag (m : List (Nat × List ToolCallFrag)) (d : ToolCallFrag) :
    List (Nat × List ToolCallFrag) :=
  match m with
  | [] => [(d.index, [d])]
  | (k, fs) :: rest =>
      if k = d.index then (k, fs ++ [d]) :: rest
      else (k, fs) :: addFrag rest d

/-- The grouping `for chunk in chunks:` loop; `none` when some chunk makes the
fragment extraction raise an uncaught exception. -/
def collectToolFrags : List Chunk → List (Nat × List ToolCallFrag) →
    Option (List (Nat × List ToolCallFrag))
  | [], m => some m
  | c :: cs, m =>
      match chunkToolFrag c with
      | FragGet.abort => none
      | FragGet.skip => collectToolFrags cs m
      | FragGet.frag d => collectToolFrags cs (addFrag m d)

/-- `List.mapM` over `Option`, written structurally. -/
def optionMapM {α β : Type} (f : α → Option β) : List α → Option (List β)
  | [] => some []
  | x :: xs =>
      match f x with
      | none => none
      | some y =>
          match optionMapM f xs with
          | none => none
          | some ys => some (y :: ys)

/-- One grouped tool call: `id`/`name`/`type` from the first fragment of the
group (`t[0]`), arguments the concatenation of every fragment's
`function.arguments` with `""` for a missing value
(`"".join(chunk.get("function", {}).get("arguments", "") for chunk in t)`).
Building `ChatCompletionMessageToolCall`/`Function` raises (pydantic) when the
first fragment's `id` or `name` is `None`. -/
def groupToToolCall (t : List ToolCallFrag) : Option MessageToolCall :=
  match t.head? with
  | none => none
  | some f0 =>
      match f0.id, f0.function.name with
      | some i, some nm =>
          some { id := i, name := nm,
                 arguments := strJoin (t.map (fun d => d.function.arguments.getD "")),
                 ty := f0.function.ty.getD "function" }
      | _, _ => none

/-- Python `repr` of a string (single-quoted; escaping of special characters
inside the string is not modelled). -/
def pyQ : String := String.singleton (Char.ofNat 39)

def pyReprStr (s : String) : String := pyQ ++ s ++ pyQ

/-- Python `str` of a list of strings, as in
`str(tool_call_names + tool_call_arguments_all)`. -/
def pyStrList (xs : List String) : String :=
  "[" ++ String.intercalate ", " (xs.map pyReprStr) ++ "]"

/-- `self.__class__.__name__ in ("OpenAIProvider", "AzureProvider")`. -/
def openAIStyle (providerClass : String) : Bool :=
  providerClass == "OpenAIProvider" || providerClass == "AzureProvider"

def startIndex (providerClass : String) : Nat :=
  if openAIStyle providerClass then 1 else 0

/-- The `function_call` fragments list comprehension over `chunks[:-1]`,
keeping chunks with a truthy (nonempty) `choices` list and a truthy (non-None)
`delta.function_call`. -/
def functionCallFrags (chunks : List Chunk) : List FunctionCallFrag :=
  chunks.dropLast.filterMap (fun c =>
    match c.choices.head? with
    | none => none
    | some ch => ch.delta.function_call)

/-- `ProviderCore.join_chunks`, parameterized by the provider class name (used
only by the `stop`/`length` branch's leading-chunk skip).  Returns the
synthesized completion and the output string; `none` models an uncaught
exception or — for an unknown terminal `finish_reason` — the source's implicit
`return None` after all branches fail. -/
def join_chunks (providerClass : String) (chunks : List Chunk) :
    Option (Completion × String) :=
  match chunks.getLast? with
  | none => none
  | some last =>
    match last.choices.head? with
    | none => none
    | some c0 =>
      if c0.finish_reason = some "tool_calls" then
        match collectToolFrags chunks [] with
        | none => none
        | some groups =>
          match optionMapM (fun g => groupToToolCall g.2) groups with
          | none => none
          | some tcs =>
            match last.id, last.created, last.model with
            | some cid, some ccr, some cm =>
                some ({ id := cid, created := ccr, model := cm,
                        object := "chat.completion",
                        choices := [{ finish_reason := "tool_calls", index := 0,
                                      message := { content := none, role := "assistant",
                                                   tool_calls := some tcs,
                                                   function_call := none } }] },
                      pyStrList (tcs.map MessageToolCall.name ++
                                 tcs.map MessageToolCall.arguments))
            | _, _, _ => none
      else if c0.finish_reason = some "function_call" then
        match (functionCallFrags chunks).head? with
        | none => none
        | some f0 =>
          match optionMapM (fun f => f.arguments) (functionCallFrags chunks) with
          | none => none
          | some args =>
            match f0.name, last.id, last.created, last.model with
            | some nm, some cid, some ccr, some cm =>
                some ({ id := cid, created := ccr, model := cm,
                        object := "chat.completion",
                        choices := [{ finish_reason := "function_call", index := 0,
                                      message := { content := none, role := "assistant",
                                                   tool_calls := none,
                                                   function_call :=
                                                     some { name := nm,
                                                            arguments := strJoin args } } }] },
                      strJoin args)
            | _, _, _, _ => none
      else if c0.finish_reason = some "stop" ∨ c0.finish_reason = some "length" then
        match optionMapM (fun c => (c.choices.head?).map (fun ch => ch.delta.content))
            (chunks.drop (startIndex providerClass)) with
        | none => none
        | some deltas =>
          let stop_content := strJoin ((deltas.filterMap id).filter (fun s => !(s == "")))
          match last.id, last.created, last.model with
          | some cid, some ccr, some cm =>
              some ({ id := cid, created := ccr, model := cm,
                      object := "chat.completion",
                      choices := [{ finish_reason := "stop", index := 0,
                                    message := { content := some stop_content,
                                                 role := "assistant",
                                                 tool_calls := none,
                                                 function_call := none } }] },
                    stop_content)
          | _, _, _ => none
      else none

/-- The terminal `finish_reason` read by `join_chunks`:
`chunks[-1].get("choices")[0].get("finish_reason")`. -/
def terminalFinish (chunks : List Chunk) : Option (Option String) :=
  match chunks.getLast? with
  | none => none
  | some last =>
      match last.choices.head? with
      | none => none
      | some c0 => some c0.finish_reason

/-- How a `join_chunks` failure surfaces to a streaming consumer.  In
`handle_response_stream` the statement
`response, output_string = self.join_chunks(chunks)` unpacks the result; when
`join_chunks` falls through every branch it returns `None` and the unpacking
raises `TypeError`.  The generator body runs while the consumer iterates it —
outside the `try`/`except` in `chat` that wraps exceptions into
`ProviderError` — so the raw exception (a `TypeError` in the unknown
`finish_reason` case) reaches the consumer unwrapped. -/
inductive StreamFailure where
  | typeError
  | providerError
deriving Repr, DecidableEq

def handle_response_stream_join (providerClass : String) (chunks : List Chunk) :
    Except StreamFailure (Completion × String) :=
  match join_chunks providerClass chunks with
  | some r => Except.ok r
  | none => Except.error StreamFailure.typeError

/-! Spec-side helpers for stating the join properties. -/

/-- The tool-call fragments the grouping loop collects, in arrival order. -/
def toolFragsOf (chunks : List Chunk) : List ToolCallFrag :=
  chunks.filterMap (fun c =>
    match chunkToolFrag c with
    | FragGet.frag d => some d
    | _ => none)

/-- Fragments bearing a given tool-call index, in arrival order. -/
def filtIdx (i : Nat) (frags : List ToolCallFrag) : List ToolCallFrag :=
  frags.filter (fun d => d.index == i)

/-- The distinct tool-call indices in order of first appearance. -/
def dedupIndices (frags : List ToolCallFrag) : List Nat :=
  frags.foldl (fun ks d => if ks.contains d.index then ks else ks ++ [d.index]) []

/-- Dictionary lookup in the grouping association list. -/
def lookupGroup (i : Nat) (m : List (Nat × List ToolCallFrag)) :
    Option (Nat × List ToolCallFrag) :=
  m.find? (fun e => e.1 == i)

/-- The `stop`/`length` output claimed by the spec: the concatenation of all
non-null text deltas in arrival order, over the chunks left after the
provider-specific skip. -/
def stopConcat (providerClass : String) (chunks : List Chunk) : String :=
  strJoin ((chunks.drop (startIndex providerClass)).filterMap
    (fun c => (c.choices.head?).bind (fun ch => ch.delta.content)))

/-! ### Anthropic stream normalizer — `AnthropicProvider.parse_response`
(anthropic.py lines 110-147)

Each upstream chunk is a decoded text line.  A line starting with
`"event: content_block_stop"` or `"event: message_stop"` yields a terminal
chunk (`finish_reason = "stop"`, empty delta).  Any other line is handled
inside `try ... except: pass`: the code splits on
`"event: content_block_delta\ndata: "` and takes element `[1]` (raises
`IndexError` when the separator is absent), `json.loads` the payload (raises
on malformed JSON), and reads `.get("delta").get("text")` (raises
`AttributeError` when there is no `"delta"` member); every such exception is
swallowed and the line is skipped.  The JSON decoding itself is abstracted
into a `decode` parameter: `decode payload = none` models a `json.loads`
failure, `some ev` a parsed object whose `delta` field is `none` when the
object has no `"delta"` member and `some t` when it does, `t` being its
(possibly null) `"text"` member. -/

structure AnthropicDeltaEvent where
  delta : Option (Option String)
deriving Repr, DecidableEq

/-- Python `str.startswith`, written structurally over the character lists. -/
def pyStartsWith (s pre : String) : Bool :=
  pre.data.isPrefixOf s.data

/-- Python `str.split(sep)` for a nonempty separator, written structurally
(the fuel bounds the recursion; one character is consumed per step, so
`length + 1` always suffices). -/
def pySplitGo (sep : List Char) : Nat → List Char → List Char → List (List Char)
  | 0, l, acc => [acc.reverse ++ l]
  | Nat.succ fuel, l, acc =>
      match l with
      | [] => [acc.reverse]
      | c :: rest =>
          if sep.isPrefixOf l then
            acc.reverse :: pySplitGo sep fuel (l.drop sep.length) []
          else pySplitGo sep fuel rest (c :: acc)

def pySplitOn (s sep : String) : List String :=
  (pySplitGo sep.data (s.data.length + 1) s.data []).map String.mk

def anthropicStopMarker (line : String) : Bool :=
  pyStartsWith line "event: content_block_stop" || pyStartsWith line "event: message_stop"

def anthropicSep : String := "event: content_block_delta\ndata: "

/-- The terminal chunk built for a stop marker line (uuid/time placeholders). -/
def anthropicStopChunk (model : String) : Chunk :=
  { id := some "", created := some 0, model := some model,
    choices := [{ delta := {}, finish_reason := some "stop" }] }

/-- The text-delta chunk built for a content-delta data line. -/
def anthropicTextChunk (model : String) (text : Option String) : Chunk :=
  { id := some "", created := some 0, model := some model,
    choices := [{ delta := { content := text, role := some "assistant" },
                  finish_reason := none }] }

/-- The chunks one upstream line contributes to the normalized stream. -/
def anthropic_line_chunks (decode : String → Option AnthropicDeltaEvent)
    (model : String) (line : String) : List Chunk :=
  if anthropicStopMarker line then [anthropicStopChunk model]
  else
    match (pySplitOn line anthropicSep).get? 1 with
    | none => []
    | some payload =>
        match decode payload with
        | none => []
        | some ev =>
            match ev.delta with
            | none => []
            | some t => [anthropicTextChunk model t]

/-- The whole `for chunk in response.iter_content(...)` generator. -/
def anthropic_parse (decode : String → Option AnthropicDeltaEvent)
    (model : String) (lines : List String) : List Chunk :=
  (lines.map (anthropic_line_chunks decode model)).flatten

/-! ### VertexAI stream normalizer — `VertexAIProvider.parse_response`
(vertexai.py lines 133-267)

Each upstream event is the `candidates[0].content` object of one decoded SSE
payload: a list of parts, each with either a `functionCall` member (name and
arguments; `args` holds the `json.dumps` serialization of the argument object)
or a `text` member.  When the first part has a non-null `functionCall`, the
code yields a role-framing first chunk, then for every part (`enumerate`) a
name chunk and an arguments chunk, then one terminal `tool_calls` chunk; a
part without `functionCall` in that loop raises (uncaught, modelled `none`).
Otherwise, when the first part's `text` is truthy (non-null, nonempty), it
yields one text-delta chunk and one terminal `stop` chunk; otherwise the event
contributes nothing. -/

structure VFunctionCall where
  name : String
  args : String
deriving Repr, DecidableEq

structure VPart where
  functionCall : Option VFunctionCall := none
  text : Option String := none
deriving Repr, DecidableEq

structure VEvent where
  parts : List VPart
deriving Repr, DecidableEq

/-- The hard-coded role-framing chunk yielded before any tool-call chunks. -/
def vertexFirstChunk (model : String) : Chunk :=
  { id := some "chatcmpl-9woLM1b1qGErhTbXA3UBQf2FhUAho", created := some 0,
    model := some model,
    choices := [{ delta := { content := none, role := some "assistant" },
                  finish_reason := none }] }

/-- The chunk announcing one call's name with empty arguments
(`ChoiceDeltaToolCallFunction(name=..., arguments="", type="function")`;
the `"call_..."` id is a uuid placeholder). -/
def vertexNameChunk (model : String) (index : Nat) (name : String) : Chunk :=
  { id := some "", created := some 0, model := some model,
    choices := [{ delta := { role := some "assistant",
                             tool_calls := some [{ index := index, id := some "call_",
                                                   function := { name := some name,
                                                                 arguments := some "",
                                                                 ty := some "function" } }] },
                  finish_reason := none }] }

/-- The chunk carrying one call's full serialized arguments as one fragment. -/
def vertexArgsChunk (model : String) (index : Nat) (args : String) : Chunk :=
  { id := some "", created := some 0, model := some model,
    choices := [{ delta := { tool_calls := some [{ index := index, id := none,
                                                   function := { name := none,
                                                                 arguments := some args,
                                                                 ty := none } }] },
                  finish_reason := none }] }

def vertexFinalChunk (model : String) : Chunk :=
  { id := some "", created := some 0, model := some model,
    choices := [{ delta := {}, finish_reason := some "tool_calls" }] }

def vertexTextChunk (model : String) (text : String) : Chunk :=
  { id := some "", created := some 0, model := some model,
    choices := [{ delta := { content := some text, role := some "assistant" },
                  finish_reason := none }] }

def vertexStopChunk (model : String) : Chunk :=
  { id := some "", created := some 0, model := some model,
    choices := [{ delta := {}, finish_reason := some "stop" }] }

/-- The chunks one upstream event expands into; `none` models an uncaught
exception (empty `parts`, or a part without `functionCall` inside the
function-call loop). -/
def vertex_event_chunks (model : String) (ev : VEvent) : Option (List Chunk) :=
  match ev.parts.head? with
  | none => none
  | some p0 =>
      match p0.functionCall with
      | some _ =>
          match optionMapM (fun ip =>
              match ip.2.functionCall with
              | none => none
              | some fc => some [vertexNameChunk model ip.1 fc.name,
                                 vertexArgsChunk model ip.1 fc.args]) ev.parts.enum with
          | none => none
          | some perPart =>
              some (vertexFirstChunk model :: perPart.flatten ++ [vertexFinalChunk model])
      | none =>
          match p0.text with
          | none => some []
          | some t =>
              if t = "" then some []
              else some [vertexTextChunk model t, vertexStopChunk model]

/-- A chunk carrying a non-`none` `finish_reason` (a terminal chunk). -/
def chunkTerminal (c : Chunk) : Bool :=
  match c.choices.head? with
  | none => false
  | some ch => ch.finish_reason.isSome

/-! ### Concrete fixtures for witnesses and counterexamples -/

/-- A provider whose send step always fails. -/
def alwaysFailProvider : MProvider Unit :=
  { name := "mock", models := ["m"],
    validate_request := fun r => Except.ok r,
    generate_client := fun _ => Except.error "boom" }

/-- A provider that validates every request and supports only model `"m"`. -/
def okProvider : MProvider Unit :=
  { name := "mock", models := ["m"],
    validate_request := fun r => Except.ok r,
    generate_client := fun _ => Except.ok () }

/-- A stream whose terminal chunk carries the unknown finish reason
`"content_filter"`. -/
def cfChunks : List Chunk :=
  [{ id := some "a", created := some 1, model := some "m",
     choices := [{ delta := { content := some "Hi", role := some "assistant" },
                   finish_reason := none }] },
   { id := some "b", created := some 2, model := some "m",
     choices := [{ delta := {}, finish_reason := some "content_filter" }] }]

/-- Two interleaved tool-call fragment streams (indices 0 and 1 alternating),
as in the spec's tool-call interleaving scenario, plus the terminal chunk. -/
def toolChunks : List Chunk :=
  [{ id := some "c1", created := some 1, model := some "m",
     choices := [{ delta := { tool_calls := some [{ index := 0, id := some "id0",
                                                    function := { name := some "f0",
                                                                  arguments := some "\x7b\x22a\x22:",
                                                                  ty := some "function" } }] },
                   finish_reason := none }] },
   { id := some "c2", created := some 2, model := some "m",
     choices := [{ delta := { tool_calls := some [{ index := 1, id := some "id1",
                                                    function := { name := some "f1",
                                                                  arguments := some "\x7b\x22b\x22:",
                                                                  ty := some "function" } }] },
                   finish_reason := none }] },
   { id := some "c3", created := some 3, model := some "m",
     choices := [{ delta := { tool_calls := some [{ index := 0,
                                                    function := { arguments := some "1\x7d" } }] },
                   finish_reason := none }] },
   { id := some "c4", created := some 4, model := some "m",
     choices := [{ delta := { tool_calls := some [{ index := 1,
                                                    function := { arguments := some "2\x7d" } }] },
                   finish_reason := none }] },
   { id := some "c5", created := some 5, model := some "m",
     choices := [{ delta := {}, finish_reason := some "tool_calls" }] }]

/-- A plain-text stream: an OpenAI-style leading role-framing chunk (given a
non-null content here to make the skip observable), two text deltas, a null
delta, and the terminal `stop` chunk. -/
def stopChunks : List Chunk :=
  [{ id := some "s0", created := some 1, model := some "m",
     choices := [{ delta := { content := some "LEADING", role := some "assistant" },
                   finish_reason := none }] },
   { id := some "s1", created := some 2, model := some "m",
     choices := [{ delta := { content := some "Hello ", role := some "assistant" },
                   finish_reason := none }] },
   { id := some "s2", created := some 3, model := some "m",
     choices := [{ delta := { content := some "world", role := some "assistant" },
                   finish_reason := none }] },
   { id := some "s3", created := some 4, model := some "m",
     choices := [{ delta := { content := none }, finish_reason := none }] },
   { id := some "s4", created := some 5, model := some "m",
     choices := [{ delta := {}, finish_reason := some "stop" }] }]

/-- Flat and banded cost fixtures. -/
def bandLow : CostBand := { range := { lo := 0, hi := some 4 }, cost := 1 }

def bandHigh : CostBand := { range := { lo := 5, hi := none }, cost := 3 }

def bandTen : CostBand := { range := { lo := 10, hi := none }, cost := 3 }

/-- A decoder fixture: payload `"payload"` parses to an object with
`delta.text = "Hello"`; everything else fails to parse. -/
def demoDecode : String → Option AnthropicDeltaEvent :=
  fun s => if s = "payload" then some { delta := some (some "Hello") } else none

/-- The tail of a single Anthropic logical response: one content delta, the
`content_block_stop` event and the `message_stop` event (a real Anthropic
stream for one response contains both stop events). -/
def anthropicSingleResponseLines : List String :=
  ["event: content_block_delta\ndata: payload",
   "event: content_block_stop\ndata: \x7b\x22type\x22: \x22content_block_stop\x22\x7d",
   "event: message_stop\ndata: \x7b\x22type\x22: \x22message_stop\x22\x7d"]

/-- A VertexAI event with a single function-call part. -/
def vFcEvent : VEvent :=
  { parts := [{ functionCall := some { name := "get_weather", args := "\x7b\x7d" },
                text := none }] }

/-- A VertexAI event whose only part carries an empty text. -/
def vTextEmptyEvent : VEvent :=
  { parts := [{ functionCall := none, text := some "" }] }

/-- A VertexAI event whose only part carries a nonempty text. -/
def vTextEvent : VEvent :=
  { parts := [{ functionCall := none, text := some "Hi" }] }

/-! ### C6 / C10 — cost calculation -/

/-- Claim C6: for every non-negative token count, `calculate_cost` returns
`token_count` times the flat per-token rate when the rate is a single number,
and for an ordered list of bands it returns `token_count` times the rate of
the band whose range contains the token count (a `none` upper bound meaning
unbounded above); stated for a count contained in exactly one band. -/
theorem calculate_cost_flat_and_banded (n : Nat) (r : Rat) (bands : List CostBand)
    (b : CostBand) (hb : b ∈ bands) (hc : bandContains b n = true)
    (huniq : ∀ bp ∈ bands, bandContains bp n = true → bp = b) :
    calculate_cost n (TokenCost.flat r) = r * n ∧
    calculate_cost n (TokenCost.banded bands) = b.cost * n := by
  refine ⟨rfl, ?_⟩
  have hsome : (bands.find? (fun x => bandContains x n)).isSome := by
    rw [List.find?_isSome]
    exact ⟨b, hb, hc⟩
  obtain ⟨b0, hb0⟩ := Option.isSome_iff_exists.mp hsome
  have hmem : b0 ∈ bands := List.mem_of_find?_eq_some hb0
  have hcont := List.find?_some hb0
  have hbb : b0 = b := huniq b0 hmem (by simpa using hcont)
  simp [calculate_cost, hb0, hbb]

/-- Witness for C6 at a concrete count, flat rate, and band table. -/
theorem calculate_cost_flat_and_banded_witness :
    calculate_cost 7 (TokenCost.flat 2) = 2 * 7 ∧
    calculate_cost 7 (TokenCost.banded [bandLow, bandHigh]) = bandHigh.cost * 7 :=
  calculate_cost_flat_and_banded 7 2 [bandLow, bandHigh] bandHigh
    (by decide) (by decide) (by decide)

/-- Claim C10: for every token count and banded token cost in which no band
contains the count, `calculate_cost` falls through the band loop and returns
`0` instead of failing. -/
theorem calculate_cost_no_band_zero (n : Nat) (bands : List CostBand)
    (h : ∀ b ∈ bands, bandContains b n = false) :
    calculate_cost n (TokenCost.banded bands) = 0 := by
  have hnone : bands.find? (fun b => bandContains b n) = none :=
    List.find?_eq_none.mpr (fun b hb => by simp [h b hb])
  rw [calculate_cost, hnone]

/-- Witness for C10: a count below the only band's lower bound. -/
theorem calculate_cost_no_band_zero_witness :
    calculate_cost 3 (TokenCost.banded [bandTen]) = 0 :=
  calculate_cost_no_band_zero 3 [bandTen] (by decide)

/-! ### C1 — retry loop behavior -/

/-- Claim C1 (code bug demonstration): with `retries = 2` and a provider
whose send always fails, `chat` performs exactly ONE send attempt — not the
`retries + 1 = 3` promised by the spec and by the method's own docstring —
because the `except` clause re-raises immediately, leaving the rest of the
loop (and the trailing `raise ProviderError("Too many requests")`)
unreachable.  The caller still receives a `ProviderError`, never a silent
empty result. -/
theorem chat_retries_two_single_attempt :
    (chat alwaysFailProvider "hi" "m" false 2).2 = 1 ∧
    (chat alwaysFailProvider "hi" "m" false 2).2 ≠ 3 ∧
    (chat alwaysFailProvider "hi" "m" false 2).1 = ChatOutcome.providerError "boom" :=
  ⟨rfl, by decide, rfl⟩

/-! ### C5 — fail-fast validation -/

/-- Claim C5: a request-validation failure, or a validated request whose model
is absent from the provider's configured model set, makes `chat` raise a
`ProviderError` with zero send attempts (before any network call); and
`validate_model` fails exactly when the model is absent from the model set. -/
theorem chat_fail_fast (β : Type) (p : MProvider β) (ci m : String) (st : Bool) (rt : Nat)
    (h : (∃ e, p.validate_request
            { chat_input := ci, model := m, is_stream := st, retries := rt } =
            Except.error e) ∨
         (∃ r, p.validate_request
            { chat_input := ci, model := m, is_stream := st, retries := rt } =
            Except.ok r ∧ r.model ∉ p.models)) :
    (∃ msg, chat p ci m st rt = (ChatOutcome.providerError msg, 0)) ∧
    (∀ q : MRequest, (∃ msg, validate_model p q = Except.error msg) ↔ q.model ∉ p.models) := by
  constructor
  · rcases h with ⟨e, he⟩ | ⟨r, hr, hm⟩
    · exact ⟨e, by simp [chat, he]⟩
    · exact ⟨"Model " ++ r.model ++ " is not supported by " ++ p.name,
        by simp [chat, hr, validate_model, hm]⟩
  · intro q
    constructor
    · rintro ⟨msg, hmsg⟩ hq
      simp [validate_model, hq] at hmsg
    · intro hq
      exact ⟨"Model " ++ q.model ++ " is not supported by " ++ p.name,
        by simp [validate_model, hq]⟩

/-- Witness for C5: a provider supporting only `"m"`, called with model
`"nope"`. -/
theorem chat_fail_fast_witness :
    (∃ msg, chat okProvider "hi" "nope" false 2 = (ChatOutcome.providerError msg, 0)) ∧
    (∀ q : MRequest,
      (∃ msg, validate_model okProvider q = Except.error msg) ↔ q.model ∉ okProvider.models) :=
  chat_fail_fast Unit okProvider "hi" "nope" false 2 (Or.inr ⟨_, rfl, by decide⟩)

/-! ### C2 — unknown terminal finish_reason -/

/-- Claim C2 (amended): when the terminal chunk's `finish_reason` is none of
the known values (`tool_calls`, `function_call`, `stop`, `length`),
`join_chunks` produces no result (the source returns `None`), and the failure
surfaces to the stream consumer as the raw `TypeError` raised when the `None`
is unpacked — not as a `ProviderError`, because the generator body runs
outside the `try`/`except` in `chat`. -/
theorem unknown_finish_reason_aggregation_fails (providerClass : String)
    (chunks : List Chunk) (fr : Option String)
    (hterm : terminalFinish chunks = some fr)
    (h1 : fr ≠ some "tool_calls") (h2 : fr ≠ some "function_call")
    (h3 : fr ≠ some "stop") (h4 : fr ≠ some "length") :
    join_chunks providerClass chunks = none ∧
    handle_response_stream_join providerClass chunks = Except.error StreamFailure.typeError := by
  have hj : join_chunks providerClass chunks = none := by
    cases hl : chunks.getLast? with
    | none => simp [join_chunks, hl]
    | some last =>
      cases hc : last.choices.head? with
      | none => simp [join_chunks, hl, hc]
      | some c0 =>
        have h5 : c0.finish_reason = fr := by
          simpa [terminalFinish, hl, hc] using hterm
        subst h5
        simp [join_chunks, hl, hc, h1, h2, h3, h4]
  exact ⟨hj, by simp [handle_response_stream_join, hj]⟩

/-- Witness for C2's amended statement at a concrete unknown finish reason. -/
theorem unknown_finish_reason_aggregation_fails_witness :
    join_chunks "AnthropicProvider" cfChunks = none ∧
    handle_response_stream_join "AnthropicProvider" cfChunks =
      Except.error StreamFailure.typeError :=
  unknown_finish_reason_aggregation_fails "AnthropicProvider" cfChunks
    (some "content_filter") rfl (by decide) (by decide) (by decide) (by decide)

/-- Counterexample to C2 as stated: on a stream whose terminal finish reason
is `"content_filter"`, the failure class reaching the consumer is the raw
`TypeError`, which is not the `ProviderError` class the claim requires. -/
theorem unknown_finish_reason_not_provider_error_cex :
    handle_response_stream_join "OpenAIProvider" cfChunks =
      Except.error StreamFailure.typeError ∧
    StreamFailure.typeError ≠ StreamFailure.providerError :=
  ⟨rfl, by decide⟩

/-! ### Helper lemmas on the stream normalizers -/

theorem anthropic_line_marker (decode : String → Option AnthropicDeltaEvent)
    (model line : String) (hm : anthropicStopMarker line = true) :
    anthropic_line_chunks decode model line = [anthropicStopChunk model] := by
  simp [anthropic_line_chunks, hm]

theorem anthropic_line_delta (decode : String → Option AnthropicDeltaEvent)
    (model line payload : String) (ev : AnthropicDeltaEvent) (t : Option String)
    (hm : anthropicStopMarker line = false)
    (hp : (pySplitOn line anthropicSep).get? 1 = some payload)
    (hd : decode payload = some ev) (ht : ev.delta = some t) :
    anthropic_line_chunks decode model line = [anthropicTextChunk model t] := by
  rw [List.get?_eq_getElem?] at hp
  simp [anthropic_line_chunks, hm, hp, hd, ht]

theorem anthropic_line_skip (decode : String → Option AnthropicDeltaEvent)
    (model line : String)
    (hm : anthropicStopMarker line = false)
    (h : (pySplitOn line anthropicSep).get? 1 = none ∨
         ∀ payload, (pySplitOn line anthropicSep).get? 1 = some payload →
           decode payload = none ∨ ∃ ev, decode payload = some ev ∧ ev.delta = none) :
    anthropic_line_chunks decode model line = [] := by
  rcases h with h | h
  · rw [List.get?_eq_getElem?] at h
    simp [anthropic_line_chunks, hm, h]
  · cases hp : (pySplitOn line anthropicSep).get? 1 with
    | none =>
        rw [List.get?_eq_getElem?] at hp
        simp [anthropic_line_chunks, hm, hp]
    | some payload =>
      rcases h payload hp with hd | ⟨ev, hd, he⟩
      · rw [List.get?_eq_getElem?] at hp
        simp [anthropic_line_chunks, hm, hp, hd]
      · rw [List.get?_eq_getElem?] at hp
        simp [anthropic_line_chunks, hm, hp, hd, he]

theorem anthropic_line_nonterminal (decode : String → Option AnthropicDeltaEvent)
    (model line : String) (hm : anthropicStopMarker line = false) :
    ∀ c ∈ anthropic_line_chunks decode model line, chunkTerminal c = false := by
  intro c hc
  cases hsp : (pySplitOn line anthropicSep)[1]? with
  | none => simp [anthropic_line_chunks, hm, hsp] at hc
  | some payload =>
    cases hd : decode payload with
    | none => simp [anthropic_line_chunks, hm, hsp, hd] at hc
    | some ev =>
      cases he : ev.delta with
      | none => simp [anthropic_line_chunks, hm, hsp, hd, he] at hc
      | some t =>
        simp [anthropic_line_chunks, hm, hsp, hd, he] at hc
        subst hc
        simp [chunkTerminal, anthropicTextChunk]

theorem anthropic_terminal_count (decode : String → Option AnthropicDeltaEvent)
    (model : String) (lines : List String) :
    (anthropic_parse decode model lines).countP chunkTerminal =
      lines.countP anthropicStopMarker := by
  induction lines with
  | nil => rfl
  | cons line rest ih =>
    have hsplit : anthropic_parse decode model (line :: rest) =
        anthropic_line_chunks decode model line ++ anthropic_parse decode model rest := by
      simp [anthropic_parse]
    by_cases hm : anthropicStopMarker line = true
    · rw [hsplit, List.countP_append, ih,
        anthropic_line_marker decode model line hm, List.countP_cons]
      simp [hm, chunkTerminal, anthropicStopChunk, Nat.add_comm]
    · have hm0 : anthropicStopMarker line = false := by
        simpa using hm
      have h0 : (anthropic_line_chunks decode model line).countP chunkTerminal = 0 :=
        List.countP_eq_zero.mpr (fun c hc => by
          simp [anthropic_line_nonterminal decode model line hm0 c hc])
      rw [hsplit, List.countP_append, ih, h0, List.countP_cons]
      simp [hm0]

theorem vertex_single_fc_chunks (model : String) (p : VPart) (fc : VFunctionCall)
    (hp : p.functionCall = some fc) :
    vertex_event_chunks model { parts := [p] } =
      some [vertexFirstChunk model, vertexNameChunk model 0 fc.name,
            vertexArgsChunk model 0 fc.args, vertexFinalChunk model] := by
  simp [vertex_event_chunks, hp, optionMapM, List.enum, List.enumFrom]

theorem vertex_text_chunks (model : String) (p : VPart) (t : String) (rest : List VPart)
    (hfc : p.functionCall = none) (ht : p.text = some t) (hne : t ≠ "") :
    vertex_event_chunks model { parts := p :: rest } =
      some [vertexTextChunk model t, vertexStopChunk model] := by
  simp [vertex_event_chunks, hfc, ht, hne]

/-! ### C9 — Anthropic per-line normalization -/

/-- Claim C9: for every line of an Anthropic upstream stream, a line beginning
with a content-stop or message-stop marker yields exactly one terminal chunk
with `finish_reason = "stop"` and an empty delta; a content-delta data line
(separator present, payload parses, `"delta"` member present) yields exactly
one text-delta chunk with `finish_reason = none`; and any malformed or
unparseable line yields no chunk at all — the per-line handler is a total
function (every fallible step sits inside the source's `try`/bare `except`),
so the normalizer never raises mid-stream. -/
theorem anthropic_line_normalization (decode : String → Option AnthropicDeltaEvent)
    (model line : String) :
    (anthropicStopMarker line = true →
      anthropic_line_chunks decode model line = [anthropicStopChunk model]) ∧
    (anthropicStopMarker line = false →
      ∀ payload ev t, (pySplitOn line anthropicSep).get? 1 = some payload →
        decode payload = some ev → ev.delta = some t →
        anthropic_line_chunks decode model line = [anthropicTextChunk model t]) ∧
    (anthropicStopMarker line = false →
      ((pySplitOn line anthropicSep).get? 1 = none ∨
        ∀ payload, (pySplitOn line anthropicSep).get? 1 = some payload →
          decode payload = none ∨ ∃ ev, decode payload = some ev ∧ ev.delta = none) →
      anthropic_line_chunks decode model line = []) :=
  ⟨fun hm => anthropic_line_marker decode model line hm,
   fun hm payload ev t hp hd ht => anthropic_line_delta decode model line payload ev t hm hp hd ht,
   fun hm h => anthropic_line_skip decode model line hm h⟩

/-- Witness for C9: a concrete stop-marker line, content-delta line, and
malformed line under the fixture decoder. -/
theorem anthropic_line_normalization_witness :
    anthropic_line_chunks demoDecode "claude-3" "event: message_stop" =
      [anthropicStopChunk "claude-3"] ∧
    anthropic_line_chunks demoDecode "claude-3" "event: content_block_delta\ndata: payload" =
      [anthropicTextChunk "claude-3" (some "Hello")] ∧
    anthropic_line_chunks demoDecode "claude-3" "garbage" = [] := by
  refine ⟨(anthropic_line_normalization demoDecode "claude-3" _).1 (by decide),
    (anthropic_line_normalization demoDecode "claude-3" _).2.1 (by decide)
      "payload" { delta := some (some "Hello") } (some "Hello") (by decide) (by decide) rfl,
    (anthropic_line_normalization demoDecode "claude-3" _).2.2 (by decide)
      (Or.inl (by decide))⟩

/-! ### C7 — one terminal chunk per logical response -/

/-- Counterexample to C7 as stated: the tail of a single Anthropic logical
response contains both a `content_block_stop` and a `message_stop` event, and
the normalizer yields one terminal chunk for EACH of them, so this
single-response stream produces 2 chunks with a non-`none` `finish_reason`,
not exactly 1. -/
theorem anthropic_two_terminal_chunks_cex :
    (anthropic_parse demoDecode "claude-3" anthropicSingleResponseLines).countP
      chunkTerminal = 2 ∧ (2 : Nat) ≠ 1 := by
  constructor
  · decide
  · decide

/-- Claim C7 (amended): in the Anthropic normalizer every stop-marker line
yields exactly one terminal chunk — so a logical response whose stream carries
both stop markers yields two — and chunks from non-marker lines all carry
`finish_reason = none`; in the VertexAI normalizer a single-event response
(single function-call part, or non-empty text part) yields exactly one
terminal chunk, emitted last. -/
theorem terminal_chunk_accounting (decode : String → Option AnthropicDeltaEvent)
    (model : String) (lines : List String) (ev : VEvent) (p : VPart)
    (fc : VFunctionCall) (q : VPart) (t : String) (rest : List VPart)
    (hp : ev.parts = [p]) (hfc : p.functionCall = some fc)
    (hq : q.functionCall = none) (hqt : q.text = some t) (hne : t ≠ "") :
    ((anthropic_parse decode model lines).countP chunkTerminal =
      lines.countP anthropicStopMarker) ∧
    (∀ line ∈ lines, anthropicStopMarker line = false →
      ∀ c ∈ anthropic_line_chunks decode model line, chunkTerminal c = false) ∧
    (∃ l, vertex_event_chunks model ev = some l ∧
      l.countP chunkTerminal = 1 ∧ l.getLast? = some (vertexFinalChunk model)) ∧
    (∃ l, vertex_event_chunks model { parts := q :: rest } = some l ∧
      l.countP chunkTerminal = 1 ∧ l.getLast? = some (vertexStopChunk model)) := by
  refine ⟨anthropic_terminal_count decode model lines,
    fun line _ hm => anthropic_line_nonterminal decode model line hm, ?_, ?_⟩
  · obtain ⟨parts⟩ := ev
    simp only at hp
    subst hp
    refine ⟨_, vertex_single_fc_chunks model p fc hfc, ?_, ?_⟩
    · simp [List.countP_cons, chunkTerminal, vertexFirstChunk, vertexNameChunk,
        vertexArgsChunk, vertexFinalChunk]
    · simp
  · refine ⟨_, vertex_text_chunks model q t rest hq hqt hne, ?_, ?_⟩
    · simp [List.countP_cons, chunkTerminal, vertexTextChunk, vertexStopChunk]
    · simp

/-- Witness for C7's amended statement on concrete streams and events. -/
theorem terminal_chunk_accounting_witness :
    ((anthropic_parse demoDecode "claude-3" anthropicSingleResponseLines).countP
        chunkTerminal =
      anthropicSingleResponseLines.countP anthropicStopMarker) ∧
    (∀ line ∈ anthropicSingleResponseLines, anthropicStopMarker line = false →
      ∀ c ∈ anthropic_line_chunks demoDecode "claude-3" line, chunkTerminal c = false) ∧
    (∃ l, vertex_event_chunks "claude-3" vFcEvent = some l ∧
      l.countP chunkTerminal = 1 ∧ l.getLast? = some (vertexFinalChunk "claude-3")) ∧
    (∃ l, vertex_event_chunks "claude-3" { parts := { functionCall := none, text := some "Hi" } :: [] } = some l ∧
      l.countP chunkTerminal = 1 ∧ l.getLast? = some (vertexStopChunk "claude-3")) :=
  terminal_chunk_accounting demoDecode "claude-3" anthropicSingleResponseLines
    vFcEvent { functionCall := some { name := "get_weather", args := "\x7b\x7d" }, text := none }
    { name := "get_weather", args := "\x7b\x7d" }
    { functionCall := none, text := some "Hi" } "Hi" [] rfl rfl rfl rfl (by decide)

/-! ### C8 — VertexAI event expansion -/

/-- Counterexample to C8 as stated: a VertexAI event with a single
function-call part expands into FOUR chunks (a leading role-framing chunk
precedes the name/arguments/terminal triple), not exactly three; and an event
whose text part is empty yields no chunks at all (the source tests the text
for truthiness), not a delta/stop pair. -/
theorem vertexai_function_call_chunk_count_cex :
    (vertex_event_chunks "gemini-pro" vFcEvent).map List.length = some 4 ∧
    (4 : Nat) ≠ 3 ∧
    vertex_event_chunks "gemini-pro" vTextEmptyEvent = some [] := by
  refine ⟨by decide, by decide, by decide⟩

/-- Claim C8 (amended): for every VertexAI event with a single function-call
part the normalizer emits exactly four canonical chunks in order — a leading
role-framing chunk, one announcing the call name with empty arguments, one
carrying the full serialized arguments as one fragment, and a terminal chunk
with `finish_reason = tool_calls`; for every event whose first part carries a
non-empty text it emits a text-delta chunk immediately followed by a terminal
`finish_reason = stop` chunk. -/
theorem vertexai_event_expansion (model : String) (p : VPart) (fc : VFunctionCall)
    (q : VPart) (t : String) (rest : List VPart)
    (hp : p.functionCall = some fc)
    (hq : q.functionCall = none) (hqt : q.text = some t) (hne : t ≠ "") :
    vertex_event_chunks model { parts := [p] } =
      some [vertexFirstChunk model, vertexNameChunk model 0 fc.name,
            vertexArgsChunk model 0 fc.args, vertexFinalChunk model] ∧
    vertex_event_chunks model { parts := q :: rest } =
      some [vertexTextChunk model t, vertexStopChunk model] :=
  ⟨vertex_single_fc_chunks model p fc hp, vertex_text_chunks model q t rest hq hqt hne⟩

/-- Witness for C8's amended statement on concrete events. -/
theorem vertexai_event_expansion_witness :
    vertex_event_chunks "gemini-pro"
        { parts := [{ functionCall := some { name := "get_weather", args := "\x7b\x7d" },
                      text := none }] } =
      some [vertexFirstChunk "gemini-pro", vertexNameChunk "gemini-pro" 0 "get_weather",
            vertexArgsChunk "gemini-pro" 0 "\x7b\x7d", vertexFinalChunk "gemini-pro"] ∧
    vertex_event_chunks "gemini-pro"
        { parts := { functionCall := none, text := some "Hi" } :: [] } =
      some [vertexTextChunk "gemini-pro" "Hi", vertexStopChunk "gemini-pro"] :=
  vertexai_event_expansion "gemini-pro"
    { functionCall := some { name := "get_weather", args := "\x7b\x7d" }, text := none }
    { name := "get_weather", args := "\x7b\x7d" }
    { functionCall := none, text := some "Hi" } "Hi" [] rfl rfl rfl (by decide)

/-! ### Helper lemmas for the `stop`/`length` join -/

/-- Python's `filter(None, ...)` also drops empty strings, but dropping empty
strings does not change a concatenation. -/
theorem strJoin_filter_ne (l : List String) :
    strJoin (l.filter (fun s => !(s == ""))) = strJoin l := by
  induction l with
  | nil => rfl
  | cons s rest ih =>
    by_cases hs : s = ""
    · subst hs
      simpa [strJoin] using ih
    · simp [strJoin, hs, ih]

/-- When every chunk has a nonempty `choices` list, the delta-content
extraction over the chunk list succeeds and produces the per-chunk optional
contents. -/
theorem optionMapM_content (l : List Chunk) (h : ∀ c ∈ l, c.choices ≠ []) :
    optionMapM (fun c => (c.choices.head?).map (fun ch => ch.delta.content)) l =
      some (l.map (fun c => (c.choices.head?).bind (fun ch => ch.delta.content))) := by
  induction l with
  | nil => rfl
  | cons c cs ih =>
    have hc := h c (by simp)
    cases hh : c.choices with
    | nil => exact absurd hh hc
    | cons ch chs =>
      have ih2 := ih (fun x hx => h x (by simp [hx]))
      simp [optionMapM, hh, ih2]

/-! ### C4 — stop/length concatenation -/

/-- Claim C4: for every chunk sequence whose terminal `finish_reason` is
`stop` or `length`, `join_chunks` returns the concatenation of all non-null
text deltas in arrival order, skipping exactly the first chunk when the
provider is OpenAI-compatible/Azure-style and skipping no chunk for any other
provider (the skip count is `startIndex`, which is 1 exactly for the
`"OpenAIProvider"`/`"AzureProvider"` class names). -/
theorem join_chunks_stop_concatenation (providerClass : String) (chunks : List Chunk)
    (last : Chunk) (c0 : DChoice) (cid : String) (ccr : Nat) (cm : String)
    (hlast : chunks.getLast? = some last)
    (hc : last.choices.head? = some c0)
    (hfr : c0.finish_reason = some "stop" ∨ c0.finish_reason = some "length")
    (hch : ∀ c ∈ chunks, c.choices ≠ [])
    (hid : last.id = some cid) (hcr : last.created = some ccr)
    (hm : last.model = some cm) :
    join_chunks providerClass chunks =
      some ({ id := cid, created := ccr, model := cm, object := "chat.completion",
              choices := [{ finish_reason := "stop", index := 0,
                            message := { content := some (stopConcat providerClass chunks),
                                         role := "assistant", tool_calls := none,
                                         function_call := none } }] },
            stopConcat providerClass chunks) ∧
    stopConcat providerClass chunks =
      strJoin ((chunks.drop (if openAIStyle providerClass then 1 else 0)).filterMap
        (fun c => (c.choices.head?).bind (fun ch => ch.delta.content))) := by
  have hne1 : c0.finish_reason ≠ some "tool_calls" := by
    rcases hfr with h | h <;> simp [h]
  have hne2 : c0.finish_reason ≠ some "function_call" := by
    rcases hfr with h | h <;> simp [h]
  have hmapm := optionMapM_content (chunks.drop (startIndex providerClass))
    (fun c hcm => hch c (List.mem_of_mem_drop hcm))
  have hcontent : strJoin
      (((chunks.drop (startIndex providerClass)).map
          (fun c => (c.choices.head?).bind (fun ch => ch.delta.content))).filterMap id
        |>.filter (fun s => !(s == ""))) = stopConcat providerClass chunks := by
    rw [strJoin_filter_ne, List.filterMap_map, stopConcat]
    rfl
  simp only [List.map_drop] at hcontent
  refine ⟨?_, by rw [stopConcat, startIndex]⟩
  rcases hfr with hf | hf
  · simp only [join_chunks, hlast, hc, hf, hmapm, hid, hcr, hm]
    simp [hcontent]
  · simp only [join_chunks, hlast, hc, hf, hmapm, hid, hcr, hm]
    simp [hcontent]

/-- Witness for C4: an OpenAI-style stream whose leading role-framing chunk is
skipped even though it carries content, with the remaining deltas
concatenated in arrival order. -/
theorem join_chunks_stop_concatenation_witness :
    (join_chunks "OpenAIProvider" stopChunks =
      some ({ id := "s4", created := 5, model := "m", object := "chat.completion",
              choices := [{ finish_reason := "stop", index := 0,
                            message := { content := some (stopConcat "OpenAIProvider" stopChunks),
                                         role := "assistant", tool_calls := none,
                                         function_call := none } }] },
            stopConcat "OpenAIProvider" stopChunks)) ∧
    stopConcat "OpenAIProvider" stopChunks = "Hello world" :=
  ⟨(join_chunks_stop_concatenation "OpenAIProvider" stopChunks
      { id := some "s4", created := some 5, model := some "m",
        choices := [{ delta := {}, finish_reason := some "stop" }] }
      { delta := {}, finish_reason := some "stop" } "s4" 5 "m"
      (by decide) rfl (Or.inl rfl) (by decide) rfl rfl rfl).1,
   by decide⟩

/-! ### Helper lemmas for the tool-call grouping -/

/-- A successful grouping pass is the fold of `addFrag` over the collected
fragments. -/
theorem collect_some_eq : ∀ (chunks : List Chunk)
    (m groups : List (Nat × List ToolCallFrag)),
    collectToolFrags chunks m = some groups →
    groups = (toolFragsOf chunks).foldl addFrag m := by
  intro chunks
  induction chunks with
  | nil =>
    intro m groups h
    simp [collectToolFrags] at h
    simp [toolFragsOf, h]
  | cons c cs ih =>
    intro m groups h
    cases hf : chunkToolFrag c with
    | abort => simp [collectToolFrags, hf] at h
    | skip =>
      simp only [collectToolFrags, hf] at h
      have := ih m groups h
      simp [toolFragsOf, List.filterMap_cons, hf, this]
    | frag d =>
      simp only [collectToolFrags, hf] at h
      have := ih (addFrag m d) groups h
      simp [toolFragsOf, List.filterMap_cons, hf, this]

theorem lookupGroup_addFrag_found (m : List (Nat × List ToolCallFrag))
    (d : ToolCallFrag) (e : Nat × List ToolCallFrag)
    (h : lookupGroup d.index m = some e) :
    lookupGroup d.index (addFrag m d) = some (e.1, e.2 ++ [d]) := by
  induction m with
  | nil => simp [lookupGroup] at h
  | cons kv rest ih =>
    obtain ⟨k, fs⟩ := kv
    by_cases hk : k = d.index
    · subst hk
      rw [lookupGroup, List.find?_cons_of_pos _ (by simp)] at h
      have he : ((d.index, fs) : Nat × List ToolCallFrag) = e := Option.some.inj h
      have ha : addFrag ((d.index, fs) :: rest) d = (d.index, fs ++ [d]) :: rest := by
        simp [addFrag]
      rw [ha, lookupGroup, List.find?_cons_of_pos _ (by simp), ← he]
    · have hb : (k == d.index) = false := by simpa using hk
      rw [lookupGroup, List.find?_cons_of_neg _ (by simp [hb])] at h
      have ha : addFrag ((k, fs) :: rest) d = (k, fs) :: addFrag rest d := by
        simp [addFrag, hk]
      rw [ha, lookupGroup, List.find?_cons_of_neg _ (by simp [hb])]
      exact ih h

theorem lookupGroup_addFrag_new (m : List (Nat × List ToolCallFrag))
    (d : ToolCallFrag) (h : lookupGroup d.index m = none) :
    lookupGroup d.index (addFrag m d) = some (d.index, [d]) := by
  induction m with
  | nil => simp [lookupGroup, addFrag]
  | cons kv rest ih =>
    obtain ⟨k, fs⟩ := kv
    by_cases hk : k = d.index
    · subst hk
      rw [lookupGroup, List.find?_cons_of_pos _ (by simp)] at h
      cases h
    · have hb : (k == d.index) = false := by simpa using hk
      rw [lookupGroup, List.find?_cons_of_neg _ (by simp [hb])] at h
      have ha : addFrag ((k, fs) :: rest) d = (k, fs) :: addFrag rest d := by
        simp [addFrag, hk]
      rw [ha, lookupGroup, List.find?_cons_of_neg _ (by simp [hb])]
      exact ih h

theorem lookupGroup_addFrag_ne (m : List (Nat × List ToolCallFrag))
    (d : ToolCallFrag) (i : Nat) (h : ¬ d.index = i) :
    lookupGroup i (addFrag m d) = lookupGroup i m := by
  have hdi : (d.index == i) = false := by simpa using h
  induction m with
  | nil => simp [lookupGroup, addFrag, hdi]
  | cons kv rest ih =>
    obtain ⟨k, fs⟩ := kv
    by_cases hk : k = d.index
    · subst hk
      have ha : addFrag ((d.index, fs) :: rest) d = (d.index, fs ++ [d]) :: rest := by
        simp [addFrag]
      rw [ha, lookupGroup, lookupGroup, List.find?_cons_of_neg _ (by simp [hdi]),
        List.find?_cons_of_neg _ (by simp [hdi])]
    · have ha : addFrag ((k, fs) :: rest) d = (k, fs) :: addFrag rest d := by
        simp [addFrag, hk]
      rw [ha, lookupGroup, lookupGroup]
      by_cases hki : k = i
      · subst hki
        rw [List.find?_cons_of_pos _ (by simp), List.find?_cons_of_pos _ (by simp)]
      · have hb : (k == i) = false := by simpa using hki
        rw [List.find?_cons_of_neg _ (by simp [hb]),
          List.find?_cons_of_neg _ (by simp [hb])]
        exact ih

/-- The dictionary after folding the fragments: each key's group is the old
group extended with exactly the fragments bearing that key, in order. -/
theorem foldl_addFrag_lookup : ∀ (frags : List ToolCallFrag)
    (m : List (Nat × List ToolCallFrag)) (i : Nat),
    lookupGroup i (frags.foldl addFrag m) =
      match lookupGroup i m with
      | some e => some (e.1, e.2 ++ filtIdx i frags)
      | none =>
          if frags.any (fun d => d.index == i) then some (i, filtIdx i frags)
          else none := by
  intro frags
  induction frags with
  | nil =>
    intro m i
    cases h : lookupGroup i m <;> simp [filtIdx, h]
  | cons d ds ih =>
    intro m i
    rw [List.foldl_cons]
    by_cases hi : d.index = i
    · subst hi
      cases h : lookupGroup d.index m with
      | some e =>
        rw [ih (addFrag m d) d.index, lookupGroup_addFrag_found m d e h]
        simp [filtIdx, List.filter_cons]
      | none =>
        rw [ih (addFrag m d) d.index, lookupGroup_addFrag_new m d h]
        simp [filtIdx, List.filter_cons]
    · have hb : (d.index == i) = false := by simpa using hi
      cases h : lookupGroup i m with
      | some e =>
        rw [ih (addFrag m d) i, lookupGroup_addFrag_ne m d i hi, h]
        simp [filtIdx, List.filter_cons, hb]
      | none =>
        rw [ih (addFrag m d) i, lookupGroup_addFrag_ne m d i hi, h]
        simp [filtIdx, List.filter_cons, List.any_cons, hb]

theorem addFrag_keys (m : List (Nat × List ToolCallFrag)) (d : ToolCallFrag) :
    (addFrag m d).map Prod.fst =
      if (m.map Prod.fst).contains d.index then m.map Prod.fst
      else m.map Prod.fst ++ [d.index] := by
  induction m with
  | nil => simp [addFrag]
  | cons kv rest ih =>
    obtain ⟨k, fs⟩ := kv
    by_cases hk : k = d.index
    · subst hk
      simp [addFrag, List.contains_cons]
    · have hb : (d.index == k) = false := by
        simp only [beq_eq_false_iff_ne, ne_eq]
        exact fun hh => hk hh.symm
      simp only [addFrag, if_neg hk, List.map_cons, ih, List.contains_cons, hb,
        Bool.false_or]
      by_cases hcont : (rest.map Prod.fst).contains d.index = true
      · rw [if_pos hcont, if_pos hcont]
      · rw [if_neg hcont, if_neg hcont]
        simp

theorem foldl_addFrag_keys : ∀ (frags : List ToolCallFrag)
    (m : List (Nat × List ToolCallFrag)),
    ((frags.foldl addFrag m).map Prod.fst) =
      frags.foldl
        (fun ks d => if ks.contains d.index then ks else ks ++ [d.index])
        (m.map Prod.fst) := by
  intro frags
  induction frags with
  | nil => intro m; rfl
  | cons d ds ih =>
    intro m
    rw [List.foldl_cons, List.foldl_cons, ih (addFrag m d), addFrag_keys]

theorem addFrag_keys_nodup (m : List (Nat × List ToolCallFrag)) (d : ToolCallFrag)
    (h : (m.map Prod.fst).Nodup) : ((addFrag m d).map Prod.fst).Nodup := by
  rw [addFrag_keys]
  by_cases hc : (m.map Prod.fst).contains d.index = true
  · rw [if_pos hc]
    exact h
  · rw [if_neg hc]
    have hnm : d.index ∉ m.map Prod.fst := by simpa using hc
    simp [List.nodup_append, h, hnm]

theorem foldl_addFrag_keys_nodup : ∀ (frags : List ToolCallFrag)
    (m : List (Nat × List ToolCallFrag)),
    (m.map Prod.fst).Nodup → ((frags.foldl addFrag m).map Prod.fst).Nodup := by
  intro frags
  induction frags with
  | nil => intro m h; exact h
  | cons d ds ih =>
    intro m h
    rw [List.foldl_cons]
    exact ih (addFrag m d) (addFrag_keys_nodup m d h)

/-- In a dictionary with no duplicate keys, looking up a member entry's key
finds that entry. -/
theorem lookupGroup_of_mem : ∀ (m : List (Nat × List ToolCallFrag))
    (e : Nat × List ToolCallFrag), e ∈ m → (m.map Prod.fst).Nodup →
    lookupGroup e.1 m = some e := by
  intro m
  induction m with
  | nil => intro e he; cases he
  | cons kv rest ih =>
    intro e hmem h
    rcases List.mem_cons.mp hmem with rfl | hmem2
    · simp [lookupGroup, List.find?_cons_of_pos]
    · have hkey : e.1 ∈ rest.map Prod.fst := List.mem_map_of_mem Prod.fst hmem2
      have hnodup := List.nodup_cons.mp h
      have hne : (kv.1 == e.1) = false := by
        simp
        intro hEq
        rw [hEq] at hnodup
        exact hnodup.1 hkey
      rw [lookupGroup, List.find?_cons_of_neg _ (by simp [hne])]
      exact ih e hmem2 hnodup.2

/-- Every entry of the grouped dictionary holds exactly the fragments bearing
its key, in arrival order. -/
theorem foldl_addFrag_entry (frags : List ToolCallFrag)
    (e : Nat × List ToolCallFrag) (hmem : e ∈ frags.foldl addFrag []) :
    e.2 = filtIdx e.1 frags := by
  have hnodup : ((frags.foldl addFrag []).map Prod.fst).Nodup :=
    foldl_addFrag_keys_nodup frags [] (by simp)
  have hfind := lookupGroup_of_mem _ e hmem hnodup
  have hfold := foldl_addFrag_lookup frags [] e.1
  rw [hfind] at hfold
  have hnone : lookupGroup e.1 ([] : List (Nat × List ToolCallFrag)) = none := rfl
  rw [hnone] at hfold
  by_cases hany : frags.any (fun d => d.index == e.1) = true
  · rw [if_pos hany] at hfold
    have := Option.some.inj hfold
    rw [this]
  · rw [if_neg hany] at hfold
    cases hfold

/-- The keys of the grouped dictionary are the distinct indices in first
appearance order. -/
theorem foldl_addFrag_keys_eq_dedup (frags : List ToolCallFrag) :
    (frags.foldl addFrag []).map Prod.fst = dedupIndices frags := by
  rw [foldl_addFrag_keys frags [], dedupIndices]
  rfl

theorem optionMapM_forall2 {α β : Type} (f : α → Option β) :
    ∀ (l : List α) (lp : List β), optionMapM f l = some lp →
      List.Forall₂ (fun a b => f a = some b) l lp := by
  intro l
  induction l with
  | nil =>
    intro lp h
    simp [optionMapM] at h
    simp [← h]
  | cons x xs ih =>
    intro lp h
    cases hx : f x with
    | none => simp [optionMapM, hx] at h
    | some y =>
      cases hxs : optionMapM f xs with
      | none => simp [optionMapM, hx, hxs] at h
      | some ys =>
        simp only [optionMapM, hx, hxs, Option.some.injEq] at h
        subst h
        exact List.Forall₂.cons hx (ih ys hxs)

theorem forall2_imp_mem {α β : Type} {R S : α → β → Prop} :
    ∀ {l : List α} {lp : List β}, List.Forall₂ R l lp →
      (∀ a ∈ l, ∀ b, R a b → S a b) → List.Forall₂ S l lp := by
  intro l lp h
  induction h with
  | nil => intro _; exact List.Forall₂.nil
  | @cons a b as bs hab htail ih =>
    intro himp
    exact List.Forall₂.cons (himp a (by simp) b hab)
      (ih (fun x hx y hr => himp x (by simp [hx]) y hr))

/-- What a successfully built tool call contains: id and name from the first
fragment of its group, arguments the in-order concatenation of the group's
argument fragments. -/
theorem groupToToolCall_spec (t : List ToolCallFrag) (tc : MessageToolCall)
    (h : groupToToolCall t = some tc) :
    some tc.id = (t.head?.bind (fun d => d.id)) ∧
    some tc.name = (t.head?.bind (fun d => d.function.name)) ∧
    tc.arguments = strJoin (t.map (fun d => d.function.arguments.getD "")) := by
  cases ht : t.head? with
  | none => simp [groupToToolCall, ht] at h
  | some f0 =>
    cases hid : f0.id with
    | none => simp [groupToToolCall, ht, hid] at h
    | some i =>
      cases hnm : f0.function.name with
      | none => simp [groupToToolCall, ht, hid, hnm] at h
      | some nm =>
        simp only [groupToToolCall, ht, hid, hnm, Option.some.injEq] at h
        subst h
        simp [ht, hid, hnm]

/-! ### C3 — tool-call grouping by index -/

/-- Claim C3: for every chunk sequence whose terminal `finish_reason` is
`tool_calls` and on which `join_chunks` succeeds, the synthesized completion
carries one tool call per distinct tool-call index in first-appearance order;
each call's `id` and `name` come from the first fragment bearing that index
and its arguments string is the concatenation of only that index's argument
fragments in arrival order — interleaved fragments of different indices are
never concatenated together. -/
theorem join_chunks_tool_calls_grouping (providerClass : String) (chunks : List Chunk)
    (comp : Completion) (s : String)
    (hterm : terminalFinish chunks = some (some "tool_calls"))
    (hj : join_chunks providerClass chunks = some (comp, s)) :
    ∃ tcs, ((comp.choices.head?).bind (fun ch => ch.message.tool_calls)) = some tcs ∧
      List.Forall₂ (fun (i : Nat) (tc : MessageToolCall) =>
          some tc.id = ((filtIdx i (toolFragsOf chunks)).head?.bind (fun d => d.id)) ∧
          some tc.name = ((filtIdx i (toolFragsOf chunks)).head?.bind
            (fun d => d.function.name)) ∧
          tc.arguments = strJoin ((filtIdx i (toolFragsOf chunks)).map
            (fun d => d.function.arguments.getD "")))
        (dedupIndices (toolFragsOf chunks)) tcs := by
  cases hl : chunks.getLast? with
  | none => simp [terminalFinish, hl] at hterm
  | some last =>
    cases hc : last.choices.head? with
    | none => simp [terminalFinish, hl, hc] at hterm
    | some c0 =>
      have hfin : c0.finish_reason = some "tool_calls" := by
        simpa [terminalFinish, hl, hc] using hterm
      cases hcol : collectToolFrags chunks [] with
      | none => simp [join_chunks, hl, hc, hfin, hcol] at hj
      | some groups =>
        cases hmapm : optionMapM (fun g => groupToToolCall g.2) groups with
        | none => simp [join_chunks, hl, hc, hfin, hcol, hmapm] at hj
        | some tcs =>
          cases hid : last.id with
          | none => simp [join_chunks, hl, hc, hfin, hcol, hmapm, hid] at hj
          | some cid =>
            cases hcr : last.created with
            | none => simp [join_chunks, hl, hc, hfin, hcol, hmapm, hid, hcr] at hj
            | some ccr =>
              cases hcm : last.model with
              | none =>
                simp [join_chunks, hl, hc, hfin, hcol, hmapm, hid, hcr, hcm] at hj
              | some cm =>
                simp only [join_chunks, hl, hc, hfin, hcol, hmapm, hid, hcr, hcm,
                  Option.some.injEq, Prod.mk.injEq, if_pos, if_true,
                  eq_self_iff_true, true_and] at hj
                obtain ⟨hcomp, hs⟩ := hj
                subst hcomp
                refine ⟨tcs, by simp, ?_⟩
                have hgroups : groups = (toolFragsOf chunks).foldl addFrag [] :=
                  collect_some_eq chunks [] groups hcol
                have hf2 := optionMapM_forall2 (fun g => groupToToolCall g.2)
                  groups tcs hmapm
                have hentry : ∀ g ∈ groups, g.2 = filtIdx g.1 (toolFragsOf chunks) := by
                  intro g hg
                  rw [hgroups] at hg
                  exact foldl_addFrag_entry (toolFragsOf chunks) g hg
                have hf3 : List.Forall₂
                    (fun g tc => groupToToolCall (filtIdx g.1 (toolFragsOf chunks)) =
                      some tc) groups tcs :=
                  forall2_imp_mem hf2 (fun g hg tc hr => by rw [← hentry g hg]; exact hr)
                have hf4 : List.Forall₂
                    (fun i tc => groupToToolCall (filtIdx i (toolFragsOf chunks)) =
                      some tc) (groups.map Prod.fst) tcs := by
                  rw [List.forall₂_map_left_iff]
                  exact hf3
                have hkeys : groups.map Prod.fst = dedupIndices (toolFragsOf chunks) := by
                  rw [hgroups]
                  exact foldl_addFrag_keys_eq_dedup (toolFragsOf chunks)
                rw [hkeys] at hf4
                exact forall2_imp_mem hf4 (fun i _ tc hr => groupToToolCall_spec _ tc hr)

/-- Witness for C3: the spec's interleaving scenario — fragment indices
0, 1, 0, 1 — joins into two tool calls whose argument strings are the
concatenations of their own index's fragments only. -/
theorem join_chunks_tool_calls_grouping_witness :
    ∃ comp s tcs, join_chunks "MockProvider" toolChunks = some (comp, s) ∧
      ((comp.choices.head?).bind (fun ch => ch.message.tool_calls)) = some tcs ∧
      List.Forall₂ (fun (i : Nat) (tc : MessageToolCall) =>
          some tc.id = ((filtIdx i (toolFragsOf toolChunks)).head?.bind (fun d => d.id)) ∧
          some tc.name = ((filtIdx i (toolFragsOf toolChunks)).head?.bind
            (fun d => d.function.name)) ∧
          tc.arguments = strJoin ((filtIdx i (toolFragsOf toolChunks)).map
            (fun d => d.function.arguments.getD "")))
        (dedupIndices (toolFragsOf toolChunks)) tcs := by
  cases hj : join_chunks "MockProvider" toolChunks with
  | none => exact absurd hj (by decide)
  | some r =>
    obtain ⟨comp, s⟩ := r
    obtain ⟨tcs, h1, h2⟩ :=
      join_chunks_tool_calls_grouping "MockProvider" toolChunks comp s (by decide) hj
    exact ⟨comp, s, tcs, rfl, h1, h2⟩

end LLMStudio
